import Mathlib

/-!
Shallow embedding of the kurrik/golibs repository (packages oauth1a and
twstream) together with proofs about the embedded fragment.

Byte strings are modelled as lists of naturals (each < 256); Lean string
literals are converted with strBytes, which is faithful for the ASCII data
appearing here.  Go machine integers are modelled as Nat/Int with explicit
reductions modulo 2^32 / 2^64 where the Go code can overflow.  The streaming
loops of twstream are embedded as structurally recursive functions on an
explicit fuel argument; every loop iteration consumes at least one byte of
the modelled input stream, so a fuel of (input length + 1) makes the
zero-fuel branch unreachable, which is proved where it matters.
-/

set_option maxRecDepth 2000000
set_option maxHeartbeats 2000000

/-- Bytes of an ASCII Lean string literal, as a list of naturals. -/
def strBytes (s : String) : List Nat := s.data.map Char.toNat

/-! ## SHA-1, HMAC and base64 (Go crypto/sha1, crypto/hmac, encoding/base64) -/

/-- Modulus for 32-bit words. -/
def w32 : Nat := 4294967296

/-- Left rotation of a 32-bit word. -/
def rotl (n x : Nat) : Nat := ((x <<< n) % w32) ||| (x >>> (32 - n))

/-- Big-endian 4-byte groups to 32-bit words. -/
def bytesToWords : List Nat → List Nat
  | a :: b :: c :: d :: rest => (((a * 256 + b) * 256 + c) * 256 + d) :: bytesToWords rest
  | _ => []

/-- SHA-1 round function (FIPS 180, f_t). -/
def sha1F (t b c d : Nat) : Nat :=
  if t < 20 then (b &&& c) ||| ((b ^^^ 4294967295) &&& d)
  else if t < 40 then b ^^^ c ^^^ d
  else if t < 60 then (b &&& c) ||| (b &&& d) ||| (c &&& d)
  else b ^^^ c ^^^ d

/-- SHA-1 round constants. -/
def sha1K (t : Nat) : Nat :=
  if t < 20 then 0x5A827999
  else if t < 40 then 0x6ED9EBA1
  else if t < 60 then 0x8F1BBCDC
  else 0xCA62C1D6

/-- Message-schedule extension; acc holds the words produced so far, most
recent first, so w[t-3], w[t-8], w[t-14], w[t-16] sit at positions 2, 7, 13, 15. -/
def sha1Extend : Nat → List Nat → List Nat
  | 0, acc => acc
  | n + 1, acc =>
      let w := rotl 1 ((acc.getD 2 0) ^^^ (acc.getD 7 0) ^^^ (acc.getD 13 0) ^^^ (acc.getD 15 0))
      sha1Extend n (w :: acc)

/-- One SHA-1 compression round on the state (a, b, c, d, e). -/
def sha1Round (t : Nat) (st : Nat × Nat × Nat × Nat × Nat) (w : Nat) : Nat × Nat × Nat × Nat × Nat :=
  match st with
  | (a, b, c, d, e) =>
    ((rotl 5 a + sha1F t b c d + e + sha1K t + w) % w32, a, rotl 30 b, c, d)

/-- Run the 80 compression rounds over the schedule. -/
def sha1Rounds : Nat → List Nat → (Nat × Nat × Nat × Nat × Nat) → (Nat × Nat × Nat × Nat × Nat)
  | _, [], st => st
  | t, w :: ws, st => sha1Rounds (t + 1) ws (sha1Round t st w)

/-- Process one 64-byte block. -/
def sha1Block (h : Nat × Nat × Nat × Nat × Nat) (block : List Nat) : Nat × Nat × Nat × Nat × Nat :=
  let ws := (sha1Extend 64 (bytesToWords block).reverse).reverse
  match h, sha1Rounds 0 ws h with
  | (h0, h1, h2, h3, h4), (a, b, c, d, e) =>
    ((h0 + a) % w32, (h1 + b) % w32, (h2 + c) % w32, (h3 + d) % w32, (h4 + e) % w32)

/-- Big-endian 8-byte encoding of a 64-bit value. -/
def be64 (n : Nat) : List Nat :=
  [(n >>> 56) % 256, (n >>> 48) % 256, (n >>> 40) % 256, (n >>> 32) % 256,
   (n >>> 24) % 256, (n >>> 16) % 256, (n >>> 8) % 256, n % 256]

/-- Big-endian 4-byte encoding of a 32-bit value. -/
def be32 (n : Nat) : List Nat :=
  [(n >>> 24) % 256, (n >>> 16) % 256, (n >>> 8) % 256, n % 256]

/-- SHA-1 padding: 0x80, zeros to 56 mod 64, then the bit length. -/
def sha1Pad (msg : List Nat) : List Nat :=
  let l := msg.length
  msg ++ [128] ++ List.replicate ((64 + 55 - l % 64) % 64) 0 ++ be64 (8 * l)

/-- Split into 64-byte chunks; the fuel equals the list length in chunks64,
which is enough since every step consumes at least one element. -/
def chunksAux : Nat → List Nat → List (List Nat)
  | _, [] => []
  | 0, _ => []
  | fuel + 1, l => l.take 64 :: chunksAux fuel (l.drop 64)

/-- Split a byte list into 64-byte blocks. -/
def chunks64 (l : List Nat) : List (List Nat) := chunksAux l.length l

/-- SHA-1 digest (20 bytes) of a byte list. -/
def sha1 (msg : List Nat) : List Nat :=
  match (chunks64 (sha1Pad msg)).foldl sha1Block
      (0x67452301, 0xEFCDAB89, 0x98BADCFE, 0x10325476, 0xC3D2E1F0) with
  | (h0, h1, h2, h3, h4) => be32 h0 ++ be32 h1 ++ be32 h2 ++ be32 h3 ++ be32 h4

/-- HMAC-SHA1 (Go crypto/hmac with sha1.New): block size 64, ipad 0x36, opad 0x5c. -/
def hmacSha1 (key msg : List Nat) : List Nat :=
  let k0 := if 64 < key.length then sha1 key ++ List.replicate 44 0
            else key ++ List.replicate (64 - key.length) 0
  sha1 ((k0.map (fun b => b ^^^ 92)) ++ sha1 ((k0.map (fun b => b ^^^ 54)) ++ msg))

/-- Character of the base64 standard alphabet. -/
def b64Char (n : Nat) : Nat :=
  if n < 26 then 65 + n
  else if n < 52 then 97 + (n - 26)
  else if n < 62 then 48 + (n - 52)
  else if n = 62 then 43 else 47

/-- Go encoding/base64 StdEncoding.EncodeToString, on bytes. -/
def base64Encode : List Nat → List Nat
  | [] => []
  | [a] => [b64Char (a >>> 2), b64Char ((a &&& 3) <<< 4), 61, 61]
  | [a, b] => [b64Char (a >>> 2), b64Char (((a &&& 3) <<< 4) ||| (b >>> 4)),
               b64Char ((b &&& 15) <<< 2), 61]
  | a :: b :: c :: rest =>
      b64Char (a >>> 2) :: b64Char (((a &&& 3) <<< 4) ||| (b >>> 4)) ::
      b64Char (((b &&& 15) <<< 2) ||| (c >>> 6)) :: b64Char (c &&& 63) ::
      base64Encode rest

/-! ## Package oauth1a (src/oauth1a/oauth1a.go, lines 451-627) -/

/-- Membership of a byte in UNESCAPE_CHARS, the set the source leaves
unescaped (oauth1a.go line 608): digits, upper and lower case ASCII letters,
and the bytes of "-._~". -/
def isUnreservedByte (c : Nat) : Bool :=
  (48 ≤ c && c ≤ 57) || (65 ≤ c && c ≤ 90) || (97 ≤ c && c ≤ 122) ||
  c == 45 || c == 46 || c == 95 || c == 126

/-- Uppercase hexadecimal digit for a value below 16. -/
def hexDigitU (n : Nat) : Nat := if n < 10 then 48 + n else 55 + n

/-- Digits produced by fmt.Sprintf "%X" for a byte value: no zero padding,
so values below 16 yield a single digit. -/
def goHexX (c : Nat) : List Nat :=
  if c < 16 then [hexDigitU c] else [hexDigitU (c / 16), hexDigitU (c % 16)]

/-- Rfc3986Escape (oauth1a.go lines 613-626): byte by byte, unreserved bytes
pass through, every other byte becomes a percent sign followed by the
fmt "%X" digits of the byte. -/
def rfc3986Escape (input : List Nat) : List Nat :=
  match input with
  | [] => []
  | c :: rest =>
    (if isUnreservedByte c then [c] else 37 :: goHexX c) ++ rfc3986Escape rest

/-- Encoding of one byte under Go net/url QueryEscape: alphanumerics and
the bytes of "-_.~" pass through, space becomes a plus sign, every other
byte becomes a percent sign and two uppercase hexadecimal digits. -/
def queryEscapeByte (c : Nat) : List Nat :=
  if (48 ≤ c && c ≤ 57) || (65 ≤ c && c ≤ 90) || (97 ≤ c && c ≤ 122) ||
     c == 45 || c == 46 || c == 95 || c == 126 then [c]
  else if c == 32 then [43]
  else [37, hexDigitU (c / 16), hexDigitU (c % 16)]

/-- Go net/url QueryEscape on a byte list. -/
def queryEscape (input : List Nat) : List Nat := input.flatMap queryEscapeByte

/-- Byte-wise lexicographic order on byte lists, the order Go uses to
compare strings (and hence the order of sort.Strings). -/
def bytesLe : List Nat → List Nat → Bool
  | [], _ => true
  | _ :: _, [] => false
  | a :: as, b :: bs => if a < b then true else if b < a then false else bytesLe as bs

/-- The order bytesLe as a proposition. -/
def bytesLeP (a b : List Nat) : Prop := bytesLe a b = true

/-- Insertion into a list sorted by bytesLe. -/
def insertKeySorted (k : List Nat) : List (List Nat) → List (List Nat)
  | [] => [k]
  | k2 :: ks => if bytesLe k k2 then k :: k2 :: ks else k2 :: insertKeySorted k ks

/-- Ascending sort of byte strings, modelling sort.Strings
(oauth1a.go line 523). -/
def sortStrings : List (List Nat) → List (List Nat)
  | [] => []
  | k :: ks => insertKeySorted k (sortStrings ks)

/-- Go strings.Join with a separator. -/
def joinSep (sep : List Nat) : List (List Nat) → List Nat
  | [] => []
  | [x] => x
  | x :: y :: rest => x ++ sep ++ joinSep sep (y :: rest)

/-- Read of a Go map modelled as an association list: the value stored at a
key, or the zero value (the empty string) when the key is absent. -/
def lookupParam (params : List (List Nat × List Nat)) (k : List Nat) : List Nat :=
  match params.find? (fun q => q.1 == k) with
  | some q => q.2
  | none => []

/-- Write of a Go map modelled as an association list: replace the value of
an existing key, otherwise append the binding. -/
def mapInsert (m : List (List Nat × List Nat)) (k v : List Nat) : List (List Nat × List Nat) :=
  if m.any (fun q => q.1 == k) then m.map (fun q => if q.1 == k then (k, v) else q)
  else m ++ [(k, v)]

/-- HmacSha1Signer.encodeParameters (oauth1a.go lines 515-530): sort the raw
key names, render each pair as escaped key, equals sign, escaped value, join
with ampersands and QueryEscape the result. -/
def encodeParameters (params : List (List Nat × List Nat)) : List Nat :=
  queryEscape (joinSep [38]
    ((sortStrings (params.map Prod.fst)).map
      (fun k => rfc3986Escape k ++ [61] ++ rfc3986Escape (lookupParam params k))))

/-- ClientConfig (oauth1a.go lines 485-489). -/
structure ClientConfig where
  consumerSecret : List Nat
  consumerKey : List Nat
  callbackURL : List Nat

/-- UserConfig (oauth1a.go lines 47-54 of the bundled earlier revision,
the struct the later revision's GetOAuthParams consumes). -/
structure UserConfig where
  requestTokenSecret : List Nat
  requestTokenKey : List Nat
  accessTokenSecret : List Nat
  accessTokenKey : List Nat

/-- UserConfig.GetToken (oauth1a.go lines 59-67): access token first, then
request token, then empty strings. -/
def UserConfig.getToken (c : UserConfig) : List Nat × List Nat :=
  if !c.accessTokenKey.isEmpty then (c.accessTokenKey, c.accessTokenSecret)
  else if !c.requestTokenKey.isEmpty then (c.requestTokenKey, c.requestTokenSecret)
  else ([], [])

/-- The parts of an http.Request that GetOAuthParams reads: the method, URL
scheme, host and path, and the first value of each query and form parameter
(the source takes value[0] of each, lines 562-569). -/
structure GoRequest where
  method : List Nat
  urlScheme : List Nat
  urlHost : List Nat
  urlPath : List Nat
  urlQuery : List (List Nat × List Nat)
  form : List (List Nat × List Nat)

/-- HmacSha1Signer.GetSignature (oauth1a.go lines 582-588): base64 of the
HMAC-SHA1 of the base string under consumerSecret, ampersand, tokenSecret. -/
def getSignature (consumerSecret tokenSecret signatureBase : List Nat) : List Nat :=
  base64Encode (hmacSha1 (consumerSecret ++ [38] ++ tokenSecret) signatureBase)

/-- HmacSha1Signer.GetOAuthParams (oauth1a.go lines 545-578) with the nonce
and timestamp injected as the source takes them.  Returns the oauth_*
parameter map including the computed signature, and the signature base
string.  Go maps are modelled as association lists built with mapInsert. -/
def getOAuthParams (req : GoRequest) (clientConfig : ClientConfig) (userConfig : UserConfig)
    (nonce timestamp : List Nat) : List (List Nat × List Nat) × List Nat :=
  let oauthParams0 : List (List Nat × List Nat) :=
    [(strBytes "oauth_consumer_key", clientConfig.consumerKey),
     (strBytes "oauth_nonce", nonce),
     (strBytes "oauth_signature_method", strBytes "HMAC-SHA1"),
     (strBytes "oauth_timestamp", timestamp),
     (strBytes "oauth_version", strBytes "1.0")]
  let tk := userConfig.getToken
  let oauthParams1 :=
    if tk.1.isEmpty then oauthParams0 else mapInsert oauthParams0 (strBytes "oauth_token") tk.1
  let signingParams := (req.urlQuery ++ req.form).foldl (fun m q => mapInsert m q.1 q.2) oauthParams1
  let signingUrl := req.urlScheme ++ strBytes "://" ++ req.urlHost ++ req.urlPath
  let signatureBase :=
    req.method ++ [38] ++ queryEscape signingUrl ++ [38] ++ encodeParameters signingParams
  (mapInsert oauthParams1 (strBytes "oauth_signature")
     (getSignature clientConfig.consumerSecret tk.2 signatureBase),
   signatureBase)

/-- Header parts rendered by HmacSha1Signer.Sign (oauth1a.go lines
596-601): the source walks the oauth parameter map with a Go range loop,
whose enumeration order the language leaves unspecified and the runtime
randomizes.  The key enumeration order of that loop is therefore an
explicit parameter of the model; a faithful run of Sign is any order that
is a permutation of the parameter map's keys. -/
def signAuthorizationHeaderParts (req : GoRequest) (clientConfig : ClientConfig)
    (userConfig : UserConfig) (nonce timestamp : List Nat)
    (order : List (List Nat)) : List (List Nat) :=
  let oauthParams := (getOAuthParams req clientConfig userConfig nonce timestamp).1
  order.map (fun k => rfc3986Escape k ++ [61, 34] ++ rfc3986Escape (lookupParam oauthParams k) ++ [34])

/-- The Authorization header built by HmacSha1Signer.Sign (oauth1a.go lines
592-605) from GetOAuthParams, with nonce and timestamp injected and the
map enumeration order of the range loop passed explicitly: OAuth followed
by the comma-space join of the rendered parts. -/
def signAuthorizationHeaderWithOrder (req : GoRequest) (clientConfig : ClientConfig)
    (userConfig : UserConfig) (nonce timestamp : List Nat)
    (order : List (List Nat)) : List Nat :=
  strBytes "OAuth " ++ joinSep (strBytes ", ")
    (signAuthorizationHeaderParts req clientConfig userConfig nonce timestamp order)

/-- Request of the signing fixture: GET on
https://stream.twitter.com/1/statuses/filter.json, no query, no form. -/
def fixtureRequest : GoRequest :=
  ⟨strBytes "GET", strBytes "https", strBytes "stream.twitter.com",
   strBytes "/1/statuses/filter.json", [], []⟩

/-- Client credentials of the signing fixture. -/
def fixtureClient : ClientConfig :=
  ⟨strBytes "consumersecret", strBytes "consumerkey", []⟩

/-- User credentials of the signing fixture: access token token, secret
secret. -/
def fixtureUser : UserConfig := ⟨[], [], strBytes "secret", strBytes "token"⟩

/-- Nonce of the signing fixture. -/
def fixtureNonce : List Nat := strBytes "54321"

/-- Timestamp of the signing fixture. -/
def fixtureTimestamp : List Nat := strBytes "12345"

/-- The literal Authorization header the fixture expects. -/
def fixtureHeaderLiteral : List Nat :=
  strBytes "OAuth oauth_consumer_key=\"consumerkey\", oauth_nonce=\"54321\", oauth_signature=\"dG59sMu9QpDU4oJMGCjKEKGlVYU%3D\", oauth_signature_method=\"HMAC-SHA1\", oauth_timestamp=\"12345\", oauth_token=\"token\", oauth_version=\"1.0\""

/-- The seven rendered parameter parts of the fixture header, in the
literal's ascending key order. -/
def fixtureHeaderPartsLiteral : List (List Nat) :=
  [strBytes "oauth_consumer_key=\"consumerkey\"",
   strBytes "oauth_nonce=\"54321\"",
   strBytes "oauth_signature=\"dG59sMu9QpDU4oJMGCjKEKGlVYU%3D\"",
   strBytes "oauth_signature_method=\"HMAC-SHA1\"",
   strBytes "oauth_timestamp=\"12345\"",
   strBytes "oauth_token=\"token\"",
   strBytes "oauth_version=\"1.0\""]

/-- One admissible map enumeration order for the fixture: the seven keys in
descending order, a permutation of the parameter map's keys. -/
def fixtureDescendingOrder : List (List Nat) :=
  [strBytes "oauth_version", strBytes "oauth_token", strBytes "oauth_timestamp",
   strBytes "oauth_signature_method", strBytes "oauth_signature", strBytes "oauth_nonce",
   strBytes "oauth_consumer_key"]

/-! ## Package twstream (src/twstream/twstream.go) -/

/-- Error values the embedded twstream fragment can surface.  eof is Go's
io.EOF; malformedChunk carries the offending size line
(twstream.go lines 223-227); the remaining constructors are abstract tags
for the failure sources of connect and request. -/
inductive GoError
  | eof
  | malformedChunk (line : List Nat)
  | signingFailure
  | writeFailure
  | dialFailure
  deriving DecidableEq

/-- Result of a Go call returning error: nil or an error value. -/
inductive GoResult
  | ok
  | err (e : GoError)
  deriving DecidableEq

/-- Message text of an error value; for malformedChunk it is the string the
source builds with fmt.Sprintf "Expected hex, got %v" (twstream.go line 225),
for eof the text of Go's io.EOF. -/
def goErrorMessage : GoError → List Nat
  | .eof => strBytes "EOF"
  | .malformedChunk line => strBytes "Expected hex, got " ++ line
  | .signingFailure => strBytes "signing failure"
  | .writeFailure => strBytes "write failure"
  | .dialFailure => strBytes "dial failure"

/-- Drop a single trailing carriage return, as bufio.Reader.ReadLine does
before returning a line that ended in a newline. -/
def stripTrailingCR (pre : List Nat) : List Nat :=
  match pre.reverse with
  | 13 :: rest => rest.reverse
  | _ => pre

/-- Model of bufio.Reader.ReadLine over a byte stream that ends in
transport EOF: none when the stream is exhausted (ReadLine returns io.EOF
with no data); otherwise the bytes before the first newline with a trailing
carriage-return-newline stripped, or all remaining bytes verbatim when no
newline remains (ReadLine returns such a final partial line with a nil
error). -/
def goReadLine : List Nat → Option (List Nat × List Nat)
  | [] => none
  | b :: bs =>
    let idx := (b :: bs).findIdx (fun c => c == 10)
    if idx = (b :: bs).length then some (b :: bs, [])
    else some (stripTrailingCR ((b :: bs).take idx), (b :: bs).drop (idx + 1))

/-- Value of one ASCII hexadecimal digit, per the three ranges of
decodeHexString (twstream.go lines 52-61). -/
def hexNibble (c : Nat) : Option Nat :=
  if 48 ≤ c && c ≤ 57 then some (c - 48)
  else if 97 ≤ c && c ≤ 102 then some (c - 97 + 10)
  else if 65 ≤ c && c ≤ 70 then some (c - 65 + 10)
  else none

/-- Accumulator loop of decodeHexString; the uint64 multiply-and-add wraps
modulo 2^64. -/
def decodeHexAux (size : Nat) : List Nat → Option Nat
  | [] => some size
  | c :: cs =>
    match hexNibble c with
    | none => none
    | some i => decodeHexAux ((size * 16 + i) % 18446744073709551616) cs

/-- decodeHexString (twstream.go lines 48-65): none models the
"Invalid hex" error return. -/
def decodeHexString (data : List Nat) : Option Nat := decodeHexAux 0 data

/-- Loop body of Connection.readData (twstream.go lines 183-196), in the
non-gzip configuration: read a line, emit it, then if TTL is positive and
the elapsed time at this step exceeds it return nil, else continue; a
ReadLine failure (here: EOF) is returned as the error.  elapsed gives the
wall-clock reading at each TTL check.  Structural on fuel; the zero-fuel
branch is unreachable for fuel above the stream length. -/
def readDataAux (ttl : Int) (elapsed : Nat → Int) :
    Nat → List Nat → Nat → List (List Nat) × GoResult
  | 0, _, _ => ([], .err .eof)
  | fuel + 1, bytes, k =>
    match goReadLine bytes with
    | none => ([], .err .eof)
    | some (line, rest) =>
      if ttl > 0 && elapsed k > ttl then ([line], .ok)
      else
        let r := readDataAux ttl elapsed fuel rest (k + 1)
        (line :: r.1, r.2)

/-- Connection.readData on a finite stream: emitted lines and final result. -/
def readData (ttl : Int) (elapsed : Nat → Int) (bytes : List Nat) (k : Nat) :
    List (List Nat) × GoResult :=
  readDataAux ttl elapsed (bytes.length + 1) bytes k

/-- Loop body of Connection.readChunkedData (twstream.go lines 218-256), in
the non-gzip configuration: read a size line, decode it as hexadecimal
(failing with the malformed-chunk error carrying the line), then io.CopyN
that many bytes to the chunk writer; a short copy forwards what was read
and surfaces EOF, unless the trailing TTL check (which the source runs
after every CopyN) fires first and returns nil; a size at or above 2^63 is
a negative int64 count for which CopyN copies nothing and reports no error.
The first component collects the payload segments handed to the writer.
Structural on fuel; the zero-fuel branch is unreachable for fuel above the
stream length. -/
def readChunkedDataAux (ttl : Int) (elapsed : Nat → Int) :
    Nat → List Nat → Nat → List (List Nat) × GoResult
  | 0, _, _ => ([], .err .eof)
  | fuel + 1, bytes, k =>
    match goReadLine bytes with
    | none => ([], .err .eof)
    | some (line, rest) =>
      match decodeHexString line with
      | none => ([], .err (.malformedChunk line))
      | some size =>
        if size < 9223372036854775808 then
          let written := rest.take size
          let seg : List (List Nat) := if written.isEmpty then [] else [written]
          if size ≤ rest.length then
            if ttl > 0 && elapsed k > ttl then (seg, .ok)
            else
              let r := readChunkedDataAux ttl elapsed fuel (rest.drop size) (k + 1)
              (seg ++ r.1, r.2)
          else
            if ttl > 0 && elapsed k > ttl then (seg, .ok) else (seg, .err .eof)
        else
          if ttl > 0 && elapsed k > ttl then ([], .ok)
          else readChunkedDataAux ttl elapsed fuel rest (k + 1)

/-- Connection.readChunkedData on a finite stream. -/
def readChunkedData (ttl : Int) (elapsed : Nat → Int) (bytes : List Nat) (k : Nat) :
    List (List Nat) × GoResult :=
  readChunkedDataAux ttl elapsed (bytes.length + 1) bytes k

/-- Lowering of one byte, the action of strings.ToLower on ASCII. -/
def toLowerByte (c : Nat) : Nat := if 65 ≤ c && c ≤ 90 then c + 32 else c

/-- Lowering of a byte list. -/
def toLowerBytes (l : List Nat) : List Nat := l.map toLowerByte

/-- Whether the first list is a prefix of the second, as a boolean. -/
def isPrefixOfB : List Nat → List Nat → Bool
  | [], _ => true
  | _ :: _, [] => false
  | a :: as, b :: bs => a == b && isPrefixOfB as bs

/-- Whether needle occurs as a contiguous run in hay, the test
strings.Index hay needle > -1 performs. -/
def containsB (needle : List Nat) : List Nat → Bool
  | [] => needle.isEmpty
  | b :: t => isPrefixOfB needle (b :: t) || containsB needle t

/-- Bytes of the header name scanned for, lowercased. -/
def contentEncodingKey : List Nat := strBytes "content-encoding:"

/-- Bytes of the token scanned for inside the header value. -/
def gzipBytes : List Nat := strBytes "gzip"

/-- The per-line test of Connection.readHeaders (twstream.go lines 149-154):
the lowercased line starts with content-encoding: and contains gzip. -/
def isGzipLine (line : List Nat) : Bool :=
  isPrefixOfB contentEncodingKey (toLowerBytes line) && containsB gzipBytes (toLowerBytes line)

/-- Header loop of Connection.readHeaders (twstream.go lines 147-161):
reads lines, records whether any gzip content-encoding line was seen, and
breaks at the first empty line; at EOF ReadLine yields an empty line, so the
loop also breaks there before the error test can fire.  Returns the flag
and the unconsumed remainder of the stream.  Structural on fuel; the
zero-fuel branch is unreachable for fuel above the stream length. -/
def readHeadersLoopAux : Nat → Bool → List Nat → Bool × List Nat
  | 0, isG, _ => (isG, [])
  | fuel + 1, isG, bytes =>
    match goReadLine bytes with
    | none => (isG, [])
    | some (line, rest) =>
      let isG2 := if isGzipLine line then true else isG
      if line.isEmpty then (isG2, rest)
      else readHeadersLoopAux fuel isG2 rest

/-- Connection.readHeaders (twstream.go lines 143-166): runs the header
loop, then downgrades the configured gzip hint when no gzip
content-encoding header was seen.  Returns the final GZip flag and the
remaining stream. -/
def readHeadersGo (gzipHint : Bool) (bytes : List Nat) : Bool × List Nat :=
  let r := readHeadersLoopAux (bytes.length + 1) false bytes
  (if gzipHint && !r.1 then false else gzipHint, r.2)

/-- The header lines of a stream: the lines before the first empty line
(or before EOF).  Declarative companion of the header loop. -/
def headerLinesAux : Nat → List Nat → List (List Nat)
  | 0, _ => []
  | fuel + 1, bytes =>
    match goReadLine bytes with
    | none => []
    | some (line, rest) => if line.isEmpty then [] else line :: headerLinesAux fuel rest

/-- Header lines of a finite stream. -/
def headerLines (bytes : List Nat) : List (List Nat) := headerLinesAux (bytes.length + 1) bytes

/-- NonEmptyWriter.Write (twstream.go lines 89-95) over an abstract
underlying writer w: returns the length and nil without writing when the
slice is empty or is exactly carriage-return-newline, else delegates to w.
The second component records the slices passed to the underlying writer. -/
def nonEmptyWrite (w : List Nat → Nat × GoResult) (p : List Nat) :
    (Nat × GoResult) × List (List Nat) :=
  if p.length == 0 || (p.length == 2 && p == [13, 10]) then ((p.length, .ok), [])
  else (w p, [p])

/-- listeningReader.Read (twstream.go lines 72-78).  The method body begins
with a call to r.Read itself rather than r.reader.Read, so no execution
with any finite budget of call steps reaches the listener write or returns:
each unit of fuel is one self-call, and none is the outcome of running out
of fuel, i.e. of never returning.  The transport bytes and the requested
buffer size are carried along unused, as the body never touches them. -/
def listeningReaderRead : Nat → List Nat → Nat → Option (Nat × List Nat)
  | 0, _, _ => none
  | fuel + 1, transport, p => listeningReaderRead fuel transport p

/-- Connection.Read (twstream.go lines 109-139) with the connect and
request steps abstracted to their results, in the GZip-off configuration
(the gzip decompression path is outside the embedded fragment).  The source
calls c.request() on line 128 without binding its error, so requestErr does
not influence the result; readHeaders can only return nil here (see
readHeadersLoopAux), after which the body loop's result is returned. -/
def connRead (connectErr : Option GoError) (requestErr : Option GoError) (chunked : Bool)
    (ttl : Int) (elapsed : Nat → Int) (bytes : List Nat) : GoResult :=
  match connectErr with
  | some e => .err e
  | none =>
    let rest := (readHeadersGo false bytes).2
    if chunked then (readChunkedData ttl elapsed rest 0).2
    else (readData ttl elapsed rest 0).2

/-! ## Helper lemmas -/

/-- Reading a line from a nonempty stream strictly shrinks the stream. -/
theorem goReadLine_rest_lt {bytes line rest : List Nat}
    (h : goReadLine bytes = some (line, rest)) : rest.length < bytes.length := by
  cases bytes with
  | nil => simp [goReadLine] at h
  | cons b bs =>
    simp only [goReadLine] at h
    split at h
    · injection h with h2
      cases h2
      simp
    · injection h with h2
      cases h2
      simp only [List.length_drop, List.length_cons]
      omega

/-- With the TTL check disabled (ttl at most zero, as a zero Configuration.TTL
leaves it), the plain-body loop runs to end of stream and returns io.EOF. -/
theorem readDataAux_ttl_nonpos (ttl : Int) (elapsed : Nat → Int) (httl : ttl ≤ 0) :
    ∀ fuel bytes k, bytes.length < fuel →
      (readDataAux ttl elapsed fuel bytes k).2 = .err .eof := by
  intro fuel
  induction fuel with
  | zero => intro bytes k h; omega
  | succ n ih =>
    intro bytes k h
    match hr : goReadLine bytes with
    | none => simp [readDataAux, hr]
    | some (line, rest) =>
      have hlt := goReadLine_rest_lt hr
      have hc : (decide (ttl > 0) && decide (elapsed k > ttl)) = false := by
        simp only [Bool.and_eq_false_iff, decide_eq_false_iff_not]
        left
        omega
      simp [readDataAux, hr, hc, ih rest (k + 1) (by omega)]

/-- With the TTL check disabled, the chunked-body loop never returns nil. -/
theorem readChunkedDataAux_ttl_nonpos (ttl : Int) (elapsed : Nat → Int) (httl : ttl ≤ 0) :
    ∀ fuel bytes k, bytes.length < fuel →
      (readChunkedDataAux ttl elapsed fuel bytes k).2 ≠ .ok := by
  intro fuel
  induction fuel with
  | zero => intro bytes k h; omega
  | succ n ih =>
    intro bytes k h
    match hr : goReadLine bytes with
    | none => simp [readChunkedDataAux, hr]
    | some (line, rest) =>
      have hlt := goReadLine_rest_lt hr
      have hc : (decide (ttl > 0) && decide (elapsed k > ttl)) = false := by
        simp only [Bool.and_eq_false_iff, decide_eq_false_iff_not]
        left
        omega
      match hd : decodeHexString line with
      | none => simp [readChunkedDataAux, hr, hd]
      | some size =>
        by_cases hs : size < 9223372036854775808
        · by_cases hsz : size ≤ rest.length
          · have hrec := ih (rest.drop size) (k + 1) (by simp only [List.length_drop]; omega)
            simp [readChunkedDataAux, hr, hd, hs, hsz, hc, hrec]
          · simp [readChunkedDataAux, hr, hd, hs, hsz, hc]
        · have hrec := ih rest (k + 1) (by omega)
          simp [readChunkedDataAux, hr, hd, hs, hc, hrec]

/-- Every list is a boolean prefix of itself. -/
theorem isPrefixOfB_refl : ∀ l : List Nat, isPrefixOfB l l = true := by
  intro l
  induction l with
  | nil => rfl
  | cons a t ih => simp [isPrefixOfB, ih]

/-- A list occurs in any extension of itself to the left. -/
theorem containsB_append_self (pre l : List Nat) : containsB l (pre ++ l) = true := by
  induction pre with
  | nil =>
    cases l with
    | nil => rfl
    | cons a t => simp [containsB, isPrefixOfB_refl]
  | cons b bt ih => simp [containsB, ih]

/-! ## Claims about the escaping function and the stream loops -/

/-- C2 evaluation at the failing input: Rfc3986Escape maps the newline byte
0x0A to the two characters "%A", a percent sign followed by a single
uppercase hexadecimal digit, because fmt "%X" does not zero-pad; the claim
of exactly two digits fails for every byte below 0x10. -/
theorem claim2_escape_newline_single_digit :
    rfc3986Escape (strBytes "\n") = strBytes "%A" := by decide

/-- C3 counterexample: at a stream that is immediately at transport EOF,
both body loops return the io.EOF error value rather than nil, in plain and
chunked mode alike (TTL zero, so the TTL check is disabled). -/
theorem claim3_counterexample :
    (readData 0 (fun _ => 0) [] 0).2 ≠ GoResult.ok ∧
    (readData 0 (fun _ => 0) [] 0).2 = GoResult.err GoError.eof ∧
    (readChunkedData 0 (fun _ => 0) [] 0).2 ≠ GoResult.ok := by decide

/-- C3 amended: for every stream whose body ends with transport EOF, with
the TTL check disabled, the plain-body loop returns the io.EOF error value,
and the chunked-body loop never returns nil (it returns io.EOF or a
malformed-chunk error); EOF is surfaced as an error value, not success. -/
theorem claim3_amended_eof_is_error (ttl : Int) (elapsed : Nat → Int) (bytes : List Nat)
    (k : Nat) (httl : ttl ≤ 0) :
    (readData ttl elapsed bytes k).2 = GoResult.err GoError.eof ∧
    (readChunkedData ttl elapsed bytes k).2 ≠ GoResult.ok :=
  ⟨readDataAux_ttl_nonpos ttl elapsed httl _ bytes k (by omega),
   readChunkedDataAux_ttl_nonpos ttl elapsed httl _ bytes k (by omega)⟩

/-- C3 amended, witness at a one-line stream. -/
theorem claim3_amended_witness :
    (readData 0 (fun _ => 0) (strBytes "a\n") 0).2 = GoResult.err GoError.eof ∧
    (readChunkedData 0 (fun _ => 0) (strBytes "a\n") 0).2 ≠ GoResult.ok :=
  claim3_amended_eof_is_error 0 (fun _ => 0) (strBytes "a\n") 0 (by decide)

/-- C4: Connection.Read calls c.request() without binding its error
(twstream.go line 128), so the result of Read is independent of a request
failure; concretely, with a failing signing step and an empty response
stream, Read returns the body loop result io.EOF instead of the signing
failure. -/
theorem claim4_request_error_discarded :
    (∀ e chunked ttl elapsed bytes,
        connRead none (some e) chunked ttl elapsed bytes =
        connRead none none chunked ttl elapsed bytes) ∧
    connRead none (some GoError.signingFailure) false 0 (fun _ => 0) [] =
      GoResult.err GoError.eof := by
  refine ⟨fun e chunked ttl elapsed bytes => rfl, ?_⟩
  decide

/-- C8 counterexample: with Configuration.TTL equal to zero and a stream
carrying two available units, the plain-body loop neither stops after one
unit nor terminates without error: it processes both lines and returns the
io.EOF error, because the source guards the TTL comparison with TTL > 0 and
a zero TTL disables the check entirely. -/
theorem claim8_counterexample :
    (readData 0 (fun _ => 0) (strBytes "a\nb\n") 0).2 ≠ GoResult.ok ∧
    (readData 0 (fun _ => 0) (strBytes "a\nb\n") 0).1.length = 2 := by decide

/-- C8 amended: the elapsed-time check runs after processing each unit and
only when TTL is positive; if TTL is positive and the elapsed reading at
the first check already exceeds it, the plain-body loop returns nil after
processing exactly one unit; a TTL of zero disables the check, and the loop
then runs to end of stream and returns the io.EOF error. -/
theorem claim8_amended_ttl_check :
    (∀ (ttl : Int) (elapsed : Nat → Int) bytes k line rest,
        goReadLine bytes = some (line, rest) → ttl > 0 → elapsed k > ttl →
        readData ttl elapsed bytes k = ([line], GoResult.ok)) ∧
    (∀ (elapsed : Nat → Int) bytes k,
        (readData 0 elapsed bytes k).2 = GoResult.err GoError.eof) := by
  constructor
  · intro ttl elapsed bytes k line rest hr h1 h2
    unfold readData
    simp [readDataAux, hr, h1, h2]
  · intro elapsed bytes k
    exact readDataAux_ttl_nonpos 0 elapsed (by omega) _ bytes k (by omega)

/-- C8 amended, witness: an expired positive TTL stops after one line with
nil; a zero TTL runs to EOF and surfaces the error. -/
theorem claim8_amended_witness :
    readData 1 (fun _ => 2) (strBytes "a\n") 0 = ([strBytes "a"], GoResult.ok) ∧
    (readData 0 (fun _ => 0) (strBytes "b\n") 0).2 = GoResult.err GoError.eof :=
  ⟨claim8_amended_ttl_check.1 1 (fun _ => 2) (strBytes "a\n") 0 (strBytes "a") []
      (by decide) (by decide) (by decide),
   claim8_amended_ttl_check.2 (fun _ => 0) (strBytes "b\n") 0⟩

/-- C9: the body of listeningReader.Read begins by calling r.Read itself
rather than r.reader.Read (twstream.go line 73), so no call returns within
any finite budget of execution steps: the wrapper never reads the
transport, never notifies the listener and never terminates. -/
theorem claim9_listening_reader_never_returns :
    ∀ fuel transport p, listeningReaderRead fuel transport p = none := by
  intro fuel
  induction fuel with
  | zero => intro transport p; rfl
  | succ n ih => intro transport p; exact ih transport p

/-- C10: NonEmptyWriter.Write returns the slice length and nil without
touching the underlying writer exactly when the slice is empty or is the
two bytes carriage-return-newline, and otherwise delegates the unchanged
slice to the underlying writer and returns its result. -/
theorem claim10_nonempty_writer (w : List Nat → Nat × GoResult) (p : List Nat) :
    nonEmptyWrite w p =
      if p = [] ∨ p = [13, 10] then ((p.length, GoResult.ok), []) else (w p, [p]) := by
  by_cases h2 : p = [13, 10]
  · subst h2; simp [nonEmptyWrite]
  · by_cases h1 : p = []
    · subst h1; simp [nonEmptyWrite]
    · rw [if_neg (by tauto)]
      simp [nonEmptyWrite, h1, h2, List.length_eq_zero]

/-! ## Header negotiation (C6) and chunk decoding (C5) -/

/-- The gzip flag accumulated by the header loop is the disjunction of the
incoming flag with a gzip content-encoding line occurring among the header
lines. -/
theorem readHeadersLoopAux_fst :
    ∀ fuel bytes isG, bytes.length < fuel →
      (readHeadersLoopAux fuel isG bytes).1 =
        (isG || (headerLinesAux fuel bytes).any isGzipLine) := by
  intro fuel
  induction fuel with
  | zero => intro bytes isG h; omega
  | succ n ih =>
    intro bytes isG h
    match hr : goReadLine bytes with
    | none => simp [readHeadersLoopAux, headerLinesAux, hr]
    | some (line, rest) =>
      have hlt := goReadLine_rest_lt hr
      by_cases he : line.isEmpty = true
      · have hline : line = [] := by
          cases line with
          | nil => rfl
          | cons a t => simp at he
        subst hline
        have hgz : isGzipLine [] = false := by decide
        simp [readHeadersLoopAux, headerLinesAux, hr, hgz]
      · have ihr := ih rest (if isGzipLine line then true else isG) (by omega)
        have hstep : (readHeadersLoopAux (n + 1) isG bytes).1 =
            (readHeadersLoopAux n (if isGzipLine line then true else isG) rest).1 := by
          simp [readHeadersLoopAux, hr, he]
        have hlines : headerLinesAux (n + 1) bytes = line :: headerLinesAux n rest := by
          simp [headerLinesAux, hr, he]
        rw [hstep, ihr, hlines]
        cases hg : isGzipLine line <;> cases isG <;> simp [hg]

/-- C6: after readHeaders, the connection GZip flag equals the caller hint
conjoined with the presence, among the response header lines, of a line
whose lowercase form starts with content-encoding: and mentions gzip; the
hint is downgraded against a non-gzip response and a false hint is never
upgraded. -/
theorem claim6_gzip_negotiated (g0 : Bool) (bytes : List Nat) :
    (readHeadersGo g0 bytes).1 = (g0 && (headerLines bytes).any isGzipLine) := by
  simp only [readHeadersGo, headerLines]
  rw [readHeadersLoopAux_fst (bytes.length + 1) bytes false (by omega)]
  cases g0 <;> cases hx : (headerLinesAux (bytes.length + 1) bytes).any isGzipLine <;> simp [hx]

/-- C5: in chunked mode, a size line that fails hexadecimal decoding makes
the loop return the malformed-chunk error carrying that line, with no
payload bytes of the chunk forwarded, and the error message contains the
offending line text; a size line that decodes to a positive count n (below
2^63) with n payload bytes available makes the loop forward exactly those n
bytes as the first segment. -/
theorem claim5_chunk_size_validation (ttl : Int) (elapsed : Nat → Int) (bytes : List Nat)
    (k : Nat) (line rest : List Nat) (hr : goReadLine bytes = some (line, rest)) :
    (decodeHexString line = none →
       readChunkedData ttl elapsed bytes k = ([], GoResult.err (GoError.malformedChunk line)) ∧
       containsB line (goErrorMessage (GoError.malformedChunk line)) = true) ∧
    (∀ n, decodeHexString line = some n → 0 < n → n < 9223372036854775808 →
       n ≤ rest.length →
       (readChunkedData ttl elapsed bytes k).1.head? = some (rest.take n) ∧
       (rest.take n).length = n) := by
  constructor
  · intro hd
    constructor
    · unfold readChunkedData
      simp [readChunkedDataAux, hr, hd]
    · simpa [goErrorMessage] using containsB_append_self (strBytes "Expected hex, got ") line
  · intro n hd h0 hbig hlen
    have htake : (rest.take n).length = n := by
      simp only [List.length_take]
      omega
    have hne : (rest.take n).isEmpty = false := by
      cases hq : rest.take n with
      | nil => rw [hq] at htake; simp at htake; omega
      | cons a t => rfl
    refine ⟨?_, htake⟩
    unfold readChunkedData
    cases hc : (decide (ttl > 0) && decide (elapsed k > ttl)) <;>
      simp [readChunkedDataAux, hr, hd, hbig, hlen, hne, hc]

/-- C5 witness: a concrete malformed size line yields the malformed-chunk
error with no payload forwarded and with the line inside the message; a
concrete size line f followed by 15 payload bytes yields exactly those 15
bytes as the first segment. -/
theorem claim5_witness :
    (readChunkedData 5 (fun _ => 0) (strBytes "zz\r\nabc") 0 =
        ([], GoResult.err (GoError.malformedChunk (strBytes "zz"))) ∧
     containsB (strBytes "zz")
       (goErrorMessage (GoError.malformedChunk (strBytes "zz"))) = true) ∧
    ((readChunkedData 5 (fun _ => 0) (strBytes "f\r\n123456789012345") 0).1.head? =
        some ((strBytes "123456789012345").take 15) ∧
     ((strBytes "123456789012345").take 15).length = 15) :=
  ⟨(claim5_chunk_size_validation 5 (fun _ => 0) (strBytes "zz\r\nabc") 0
      (strBytes "zz") (strBytes "abc") (by decide)).1 (by decide),
   (claim5_chunk_size_validation 5 (fun _ => 0) (strBytes "f\r\n123456789012345") 0
      (strBytes "f") (strBytes "123456789012345") (by decide)).2 15
      (by decide) (by decide) (by decide) (by decide)⟩

/-! ## Order-independence of parameter encoding (C7) -/

/-- Totality of the byte-wise lexicographic order. -/
theorem bytesLe_total : ∀ a b : List Nat, bytesLe a b = true ∨ bytesLe b a = true := by
  intro a
  induction a with
  | nil => intro b; left; rfl
  | cons x xs ih =>
    intro b
    cases b with
    | nil => right; rfl
    | cons y ys =>
      rcases Nat.lt_trichotomy x y with h | h | h
      · left; simp [bytesLe, h]
      · subst h
        rcases ih ys with h2 | h2
        · left; simp [bytesLe, h2]
        · right; simp [bytesLe, h2]
      · right; simp [bytesLe, h]

/-- Antisymmetry of the byte-wise lexicographic order. -/
theorem bytesLe_antisymm : ∀ a b : List Nat, bytesLe a b = true → bytesLe b a = true → a = b := by
  intro a
  induction a with
  | nil =>
    intro b h1 h2
    cases b with
    | nil => rfl
    | cons y ys => simp [bytesLe] at h2
  | cons x xs ih =>
    intro b h1 h2
    cases b with
    | nil => simp [bytesLe] at h1
    | cons y ys =>
      rcases Nat.lt_trichotomy x y with h | h | h
      · simp [bytesLe, h, Nat.lt_asymm h] at h2
      · subst h
        simp only [bytesLe, Nat.lt_irrefl, if_false] at h1 h2
        rw [ih ys (by simpa using h1) (by simpa using h2)]
      · simp [bytesLe, h, Nat.lt_asymm h] at h1

/-- Transitivity of the byte-wise lexicographic order. -/
theorem bytesLe_trans :
    ∀ a b c : List Nat, bytesLe a b = true → bytesLe b c = true → bytesLe a c = true := by
  intro a
  induction a with
  | nil => intro b c h1 h2; rfl
  | cons x xs ih =>
    intro b c h1 h2
    cases b with
    | nil => simp [bytesLe] at h1
    | cons y ys =>
      cases c with
      | nil => simp [bytesLe] at h2
      | cons z zs =>
        rcases Nat.lt_trichotomy x y with hxy | hxy | hxy
        · rcases Nat.lt_trichotomy y z with hyz | hyz | hyz
          · simp [bytesLe, Nat.lt_trans hxy hyz]
          · subst hyz; simp [bytesLe, hxy]
          · simp [bytesLe, hyz, Nat.lt_asymm hyz] at h2
        · subst hxy
          rcases Nat.lt_trichotomy x z with hyz | hyz | hyz
          · simp [bytesLe, hyz]
          · subst hyz
            simp only [bytesLe, Nat.lt_irrefl, if_false] at h1 h2 ⊢
            exact ih ys zs (by simpa using h1) (by simpa using h2)
          · simp [bytesLe, hyz, Nat.lt_asymm hyz] at h2
        · simp [bytesLe, hxy, Nat.lt_asymm hxy] at h1

/-- Inserting a key produces a permutation of consing it. -/
theorem insertKeySorted_perm (k : List Nat) (ks : List (List Nat)) :
    (insertKeySorted k ks).Perm (k :: ks) := by
  induction ks with
  | nil => exact List.Perm.refl _
  | cons a t ih =>
    by_cases h : bytesLe k a = true
    · simp only [insertKeySorted, if_pos h]
      exact List.Perm.refl _
    · simp only [insertKeySorted, if_neg h]
      exact (ih.cons a).trans (List.Perm.swap k a t)

/-- Sorting produces a permutation of the input. -/
theorem sortStrings_perm (ks : List (List Nat)) : (sortStrings ks).Perm ks := by
  induction ks with
  | nil => exact List.Perm.refl _
  | cons a t ih => exact (insertKeySorted_perm a (sortStrings t)).trans (ih.cons a)

/-- Insertion preserves sortedness under the byte-wise order. -/
theorem insertKeySorted_sorted (k : List Nat) (ks : List (List Nat))
    (h : List.Sorted bytesLeP ks) : List.Sorted bytesLeP (insertKeySorted k ks) := by
  induction ks with
  | nil => simp [insertKeySorted, bytesLeP]
  | cons a t ih =>
    rw [List.sorted_cons] at h
    obtain ⟨ha, ht⟩ := h
    by_cases hk : bytesLe k a = true
    · simp only [insertKeySorted, if_pos hk]
      rw [List.sorted_cons]
      refine ⟨?_, by rw [List.sorted_cons]; exact ⟨ha, ht⟩⟩
      intro b hb
      rcases List.mem_cons.mp hb with hb | hb
      · subst hb; exact hk
      · exact bytesLe_trans k a b hk (ha b hb)
    · simp only [insertKeySorted, if_neg hk]
      rw [List.sorted_cons]
      refine ⟨?_, ih ht⟩
      intro b hb
      have hb2 : b ∈ k :: t := (insertKeySorted_perm k t).mem_iff.mp hb
      rcases List.mem_cons.mp hb2 with hbk | hbt
      · subst hbk
        rcases bytesLe_total a b with h2 | h2
        · exact h2
        · exact absurd h2 hk
      · exact ha b hbt

/-- The sort produces a list sorted under the byte-wise order. -/
theorem sortStrings_sorted (ks : List (List Nat)) : List.Sorted bytesLeP (sortStrings ks) := by
  induction ks with
  | nil => simp [sortStrings]
  | cons a t ih => exact insertKeySorted_sorted a (sortStrings t) ih

/-- Sorting is invariant under permutation of the input. -/
theorem sortStrings_eq_of_perm {l1 l2 : List (List Nat)} (h : l1.Perm l2) :
    sortStrings l1 = sortStrings l2 := by
  haveI : IsAntisymm (List Nat) bytesLeP := ⟨fun a b h1 h2 => bytesLe_antisymm a b h1 h2⟩
  exact List.eq_of_perm_of_sorted
    (((sortStrings_perm l1).trans h).trans (sortStrings_perm l2).symm)
    (sortStrings_sorted l1) (sortStrings_sorted l2)

/-- With pairwise distinct keys, the first binding found for a key is
invariant under permutation of the association list. -/
theorem find?_key_perm {l1 l2 : List (List Nat × List Nat)} (p : l1.Perm l2) :
    ∀ k, (l1.map Prod.fst).Nodup →
      l1.find? (fun q => q.1 == k) = l2.find? (fun q => q.1 == k) := by
  induction p with
  | nil => intro k nd; rfl
  | cons x p ih =>
    intro k nd
    simp only [List.map_cons, List.nodup_cons] at nd
    cases hx : (x.1 == k) <;> simp [List.find?_cons, hx]
    exact ih k nd.2
  | swap x y l =>
    intro k nd
    simp only [List.map_cons, List.nodup_cons, List.mem_cons] at nd
    cases hy : (y.1 == k) <;> cases hx : (x.1 == k) <;> simp [List.find?_cons, hx, hy]
    exact absurd (Or.inl ((by simpa using hy : y.1 = k).trans
      (by simpa using hx : x.1 = k).symm)) nd.1
  | trans p1 p2 ih1 ih2 =>
    intro k nd
    have nd2 := ((p1.map Prod.fst).nodup_iff).mp nd
    exact (ih1 k nd).trans (ih2 k nd2)

/-- C7: the encoded-and-sorted parameter string of encodeParameters is the
same for every insertion order of a parameter set with distinct raw key
names, because the raw names are sorted byte-wise before encoding. -/
theorem claim7_encode_order_independent (l1 l2 : List (List Nat × List Nat))
    (hp : l1.Perm l2) (nd : (l1.map Prod.fst).Nodup) :
    encodeParameters l1 = encodeParameters l2 := by
  unfold encodeParameters
  rw [sortStrings_eq_of_perm (hp.map Prod.fst)]
  have hl : ∀ q, lookupParam l1 q = lookupParam l2 q := by
    intro q
    unfold lookupParam
    rw [find?_key_perm hp q nd]
  simp only [hl]

/-- C7 witness: the two insertion orders of a concrete two-parameter set
encode identically. -/
theorem claim7_witness :
    encodeParameters [(strBytes "b", strBytes "2"), (strBytes "a", strBytes "1")] =
    encodeParameters [(strBytes "a", strBytes "1"), (strBytes "b", strBytes "2")] :=
  claim7_encode_order_independent _ _ (List.Perm.swap _ _ _) (by decide)

/-! ## The signing fixture (C1) -/

/-- C1 counterexample: the descending key enumeration is a permutation of
the fixture parameter map's keys, hence an admissible order for the range
loop of Sign, and under it the produced Authorization header differs from
the claimed literal: the source does not deterministically produce that
exact string, it produces the same seven parts in an unspecified,
run-dependent order. -/
theorem claim1_counterexample :
    fixtureDescendingOrder.Perm
      (((getOAuthParams fixtureRequest fixtureClient fixtureUser fixtureNonce
          fixtureTimestamp).1).map Prod.fst) ∧
    signAuthorizationHeaderWithOrder fixtureRequest fixtureClient fixtureUser fixtureNonce
      fixtureTimestamp fixtureDescendingOrder ≠ fixtureHeaderLiteral := by
  constructor
  · decide
  · decide

/-- C1 amended: with consumer secret consumersecret, token secret secret,
method GET, URL https://stream.twitter.com/1/statuses/filter.json, nonce
54321, timestamp 12345, token token and consumer key consumerkey, the
signing pipeline (GetOAuthParams, GetSignature via an executable
SHA-1/HMAC/base64 embedding, and the header rendering of Sign) produces,
under every admissible enumeration order of the parameter map, exactly the
seven rendered parts of the claimed literal as a multiset — in particular
oauth_signature is dG59sMu9QpDU4oJMGCjKEKGlVYU escaped as percent-3D —
and under the ascending key enumeration the header equals the literal
exactly. -/
theorem claim1_amended_header_up_to_order :
    (∀ order : List (List Nat),
        order.Perm (((getOAuthParams fixtureRequest fixtureClient fixtureUser fixtureNonce
            fixtureTimestamp).1).map Prod.fst) →
        (signAuthorizationHeaderParts fixtureRequest fixtureClient fixtureUser fixtureNonce
            fixtureTimestamp order).Perm fixtureHeaderPartsLiteral) ∧
    signAuthorizationHeaderWithOrder fixtureRequest fixtureClient fixtureUser fixtureNonce
        fixtureTimestamp
        (sortStrings (((getOAuthParams fixtureRequest fixtureClient fixtureUser fixtureNonce
            fixtureTimestamp).1).map Prod.fst)) = fixtureHeaderLiteral := by
  constructor
  · intro order hperm
    simp only [signAuthorizationHeaderParts]
    refine (hperm.map _).trans ?_
    decide
  · decide

/-- C1 amended, witness: at the descending enumeration order the rendered
parts are a permutation of the literal's seven parts. -/
theorem claim1_amended_witness :
    (signAuthorizationHeaderParts fixtureRequest fixtureClient fixtureUser fixtureNonce
        fixtureTimestamp fixtureDescendingOrder).Perm fixtureHeaderPartsLiteral :=
  claim1_amended_header_up_to_order.1 fixtureDescendingOrder (by decide)
